import Mathlib

/-!
Shallow embedding of the hymns-generator selection engine
(`src/hymns/service.py`) and its history-aware wrapper
(`src/database/history_service.py`).

Randomness (`random.sample` / `random.choice`) is modelled by explicit
function parameters `sample` / `choice`; the properties Python's
`random.sample` and `random.choice` guarantee (length, membership,
distinctness of drawn positions) are stated as the `SampleOK` / `ChoiceOK`
predicates and assumed as hypotheses where needed.

The database-backed history query `get_recent_hymn_numbers` is modelled by
an injected accessor `hist : Option Nat → Option String → Nat → List Nat`
mapping (ward_id, ward_name, weeks_back) to the set of recently used hymn
numbers, mirroring the three arguments the service passes to it.
-/

/-- ASCII lowercase map, modelling Python's `str.lower()` on the ASCII
category and tag strings of the catalog (structural, so it reduces in the
kernel, unlike `String.toLower`). -/
def pyLower (s : String) : String := ⟨s.data.map Char.toLower⟩

/-- A hymn catalog entry (`hymns/models.py`, class `Hymn`). -/
structure Hymn where
  number : Nat
  title : String
  category : String
  tags : List String
deriving DecidableEq, Repr

/-- `hymns/models.py`, enum `FestivityType`. -/
inductive FestivityType where
  | natale
  | pasqua
deriving DecidableEq, Repr

/-- The `.value` of the `FestivityType` enum member. -/
def FestivityType.value : FestivityType → String
  | .natale => "natale"
  | .pasqua => "pasqua"

/-- Errors raised by the selection code: `InvalidFilterError`,
`InsufficientHymnsError`, and the builtin `IndexError` / `ValueError`
that `random.choice` on an empty list and the replacement path can raise. -/
inductive HymnError where
  | invalidFilter
  | insufficientHymns
  | indexError
  | valueError
deriving DecidableEq, Repr

deriving instance DecidableEq for Except

/-- `HymnService._filter_by_category`. -/
def filter_by_category (hymns : List Hymn) (category : String) : List Hymn :=
  hymns.filter (fun h => pyLower h.category == pyLower category)

/-- `HymnService._filter_by_tags`. -/
def filter_by_tags (hymns : List Hymn) (tag : String) : List Hymn :=
  hymns.filter (fun h => (h.tags.map pyLower).contains (pyLower tag))

/-- `HymnService._exclude_special_occasions`. -/
def exclude_special_occasions (hymns : List Hymn) : List Hymn :=
  hymns.filter (fun h => pyLower h.category != "occasioni speciali")

/-- `HymnService._exclude_festive_hymns.should_exclude_hymn`.
`allowed = none` models `allowed_festivity = None`. -/
def should_exclude_hymn (allowed : Option String) (h : Hymn) : Bool :=
  let categoryLower := pyLower h.category
  let tagsLower := h.tags.map pyLower
  if categoryLower == "natale" then allowed != some "natale"
  else if categoryLower == "pasqua" then allowed != some "pasqua"
  else
    match allowed with
    | some a =>
        (tagsLower.contains "natale" && a != "natale") ||
        (tagsLower.contains "pasqua" && a != "pasqua")
    | none => false

/-- `HymnService._exclude_festive_hymns`. -/
def exclude_festive_hymns (hymns : List Hymn) (allowed : Option String) : List Hymn :=
  hymns.filter (fun h => !should_exclude_hymn allowed h)

/-- `HymnService._get_sacramento_hymns`; the Python guard
`if domenica_festiva and tipo_festivita` is the match on both arguments. -/
def get_sacramento_hymns (catalog : List Hymn) (domenicaFestiva : Bool)
    (tipoFestivita : Option FestivityType) : List Hymn :=
  let sacramentoHymns := filter_by_category catalog "sacramento"
  match domenicaFestiva, tipoFestivita with
  | true, some t => exclude_festive_hymns sacramentoHymns (some t.value)
  | _, _ => exclude_festive_hymns sacramentoHymns none

/-- The de-duplication loop of `HymnService._get_other_hymns` (lines
174-183): keeps the first hymn for each number, skipping sacramento
hymns, and threads the `seen_numbers` set; returns the unique list and
the final seen set. -/
def dedup_festive : List Hymn → List Nat → List Hymn × List Nat
  | [], seen => ([], seen)
  | h :: t, seen =>
      if !(seen.contains h.number) && (pyLower h.category != "sacramento") then
        let rest := dedup_festive t (h.number :: seen)
        (h :: rest.1, rest.2)
      else dedup_festive t seen

/-- Whether a special-occasion hymn carries the conflicting festivity's
tag (`_get_other_hymns`, lines 203-210). -/
def has_conflicting_tags (tipoValue : String) (h : Hymn) : Bool :=
  let tagsLower := h.tags.map pyLower
  (tipoValue == "natale" && tagsLower.contains "pasqua") ||
  (tipoValue == "pasqua" && tagsLower.contains "natale")

/-- The "occasioni speciali" top-up loop of `_get_other_hymns` (lines
199-215): walks the special-occasion hymns, adding a hymn when its number
is unseen, fewer than `needed` have been added, and it has no conflicting
festive tag; returns the list of added hymns. -/
def top_up (specials : List Hymn) (seen : List Nat) (needed : Nat)
    (tipoValue : String) : List Hymn :=
  match specials, needed with
  | _, 0 => []
  | [], _ => []
  | h :: t, Nat.succ m =>
      if !(seen.contains h.number) then
        if has_conflicting_tags tipoValue h then top_up t seen (m + 1) tipoValue
        else h :: top_up t (h.number :: seen) m tipoValue
      else top_up t seen (m + 1) tipoValue

/-- The strictly-festive non-sacramento pool of `_get_other_hymns`
(category matches plus tag matches, de-duplicated by number, then
strictly festive-filtered), together with the `seen_numbers` set as it
stands when the top-up loop starts. -/
def festive_strict_pool (catalog : List Hymn) (t : FestivityType) :
    List Hymn × List Nat :=
  let festiveHymnsByCategory :=
    (filter_by_category catalog t.value).filter
      (fun h => pyLower h.category != "sacramento")
  let festiveHymnsByTags :=
    (filter_by_tags catalog t.value).filter
      (fun h => pyLower h.category != "sacramento" && pyLower h.category != t.value)
  let dedup := dedup_festive (festiveHymnsByCategory ++ festiveHymnsByTags) []
  (exclude_festive_hymns dedup.1 (some t.value), dedup.2)

/-- The hymns the top-up step of `_get_other_hymns` appends from the
"occasioni speciali" category (empty when the strict pool already has the
3 required hymns). -/
def occasioni_added (catalog : List Hymn) (t : FestivityType) : List Hymn :=
  let strict := festive_strict_pool catalog t
  if strict.1.length < 3 then
    top_up (filter_by_category catalog "occasioni speciali") strict.2
      (3 - strict.1.length) t.value
  else []

/-- `HymnService._get_other_hymns`; raises `InvalidFilterError` when
`domenica_festiva` is true without a `tipo_festivita`. -/
def get_other_hymns (catalog : List Hymn) (domenicaFestiva : Bool)
    (tipoFestivita : Option FestivityType) : Except HymnError (List Hymn) :=
  let otherHymns := catalog.filter (fun h => pyLower h.category != "sacramento")
  if domenicaFestiva then
    match tipoFestivita with
    | none => .error .invalidFilter
    | some t => .ok ((festive_strict_pool catalog t).1 ++ occasioni_added catalog t)
  else
    .ok (exclude_festive_hymns (exclude_special_occasions otherHymns) none)

/-- `HymnService.get_hymns`. The `sample`/`choice` parameters stand for
`random.sample`/`random.choice`; the final `[]` case is the `IndexError`
a malformed sample would cause, which the surrounding `except` block
converts to `InsufficientHymnsError`. -/
def get_hymns (sample : List Hymn → Nat → List Hymn) (choice : List Hymn → Hymn)
    (catalog : List Hymn) (primaDomenica domenicaFestiva : Bool)
    (tipoFestivita : Option FestivityType) : Except HymnError (List Hymn) :=
  let hymnCount := if primaDomenica then 3 else 4
  let sacramentoHymns := get_sacramento_hymns catalog domenicaFestiva tipoFestivita
  if sacramentoHymns.isEmpty then .error .insufficientHymns
  else
    match get_other_hymns catalog domenicaFestiva tipoFestivita with
    | .error e => .error e
    | .ok otherHymns =>
        let requiredOtherHymns := hymnCount - 1
        if otherHymns.length < requiredOtherHymns then .error .insufficientHymns
        else
          match sample otherHymns requiredOtherHymns with
          | [] => .error .insufficientHymns
          | o :: rest => .ok (o :: choice sacramentoHymns :: rest)

/-- `HymnHistoryService.filter_available_hymns`. -/
def filter_available_hymns (hymns : List Hymn) (usedHymns : List Nat) : List Hymn :=
  hymns.filter (fun h => !(usedHymns.contains h.number))

/-- The final draw-and-arrange step of `get_smart_hymns` (lines 136-145):
`random.choice` on an empty sacramento pool raises `IndexError`. -/
def pick_and_arrange (sample : List Hymn → Nat → List Hymn)
    (choice : List Hymn → Hymn) (availableOther availableSacramento : List Hymn)
    (requiredOtherHymns : Nat) : Except HymnError (List Hymn) :=
  match availableSacramento with
  | [] => .error .indexError
  | s :: ss =>
      match sample availableOther requiredOtherHymns with
      | [] => .error .indexError
      | o :: rest => .ok (o :: choice (s :: ss) :: rest)

/-- `HymnHistoryService.get_smart_hymns`. Note that the first history
query passes both `ward_id` and `ward_name` (line 100), while both
3-week re-queries pass only `ward_name` (lines 112 and 128). -/
def get_smart_hymns (sample : List Hymn → Nat → List Hymn)
    (choice : List Hymn → Hymn)
    (hist : Option Nat → Option String → Nat → List Nat)
    (catalog : List Hymn) (wardId : Option Nat) (wardName : Option String)
    (primaDomenica domenicaFestiva : Bool)
    (tipoFestivita : Option FestivityType) : Except HymnError (List Hymn) :=
  let usedHymns := hist wardId wardName 5
  let hymnCount := if primaDomenica then 3 else 4
  let sacramentoHymns := get_sacramento_hymns catalog domenicaFestiva tipoFestivita
  let availableSacramento0 := filter_available_hymns sacramentoHymns usedHymns
  let usedHymns1 := if availableSacramento0.isEmpty then hist none wardName 3 else usedHymns
  let availableSacramento :=
    if availableSacramento0.isEmpty then
      let relaxed := filter_available_hymns sacramentoHymns (hist none wardName 3)
      if relaxed.isEmpty then sacramentoHymns else relaxed
    else availableSacramento0
  match get_other_hymns catalog domenicaFestiva tipoFestivita with
  | .error e => .error e
  | .ok otherHymns =>
      let requiredOtherHymns := hymnCount - 1
      let availableOther0 := filter_available_hymns otherHymns usedHymns1
      if availableOther0.length < requiredOtherHymns then
        let availableOther1 := filter_available_hymns otherHymns (hist none wardName 3)
        if availableOther1.length < requiredOtherHymns then
          get_hymns sample choice catalog primaDomenica domenicaFestiva tipoFestivita
        else
          pick_and_arrange sample choice availableOther1 availableSacramento
            requiredOtherHymns
      else
        pick_and_arrange sample choice availableOther0 availableSacramento
          requiredOtherHymns

/-- The position → pool dispatch shared by `get_replacement_hymn` (lines
345-349) and `get_available_hymns` (lines 397-401): position 2 is the
sacramento pool, every other position the other pool. -/
def pool_for_position (catalog : List Hymn) (position : Nat)
    (domenicaFestiva : Bool) (tipoFestivita : Option FestivityType) :
    Except HymnError (List Hymn) :=
  if position == 2 then .ok (get_sacramento_hymns catalog domenicaFestiva tipoFestivita)
  else get_other_hymns catalog domenicaFestiva tipoFestivita

/-- `HymnHistoryService.get_replacement_hymn`; the final `[]` case is the
`ValueError` the code raises when no hymn remains. -/
def get_replacement_hymn (choice : List Hymn → Hymn)
    (hist : Option Nat → Option String → Nat → List Nat)
    (catalog : List Hymn) (position : Nat) (wardId : Option Nat)
    (wardName : Option String) (primaDomenica domenicaFestiva : Bool)
    (tipoFestivita : Option FestivityType) (excludeNumbers : List Nat) :
    Except HymnError Hymn :=
  let usedHymns := hist wardId wardName 5
  let allExcluded := usedHymns ++ excludeNumbers
  match pool_for_position catalog position domenicaFestiva tipoFestivita with
  | .error e => .error e
  | .ok availableHymns =>
      let available := availableHymns.filter (fun h => !(allExcluded.contains h.number))
      let available :=
        if available.isEmpty then
          availableHymns.filter (fun h => !(excludeNumbers.contains h.number))
        else available
      match available with
      | [] => .error .valueError
      | a :: rest => .ok (choice (a :: rest))

/-- Ascending insertion by hymn number, the building block of the stable
`available.sort(key=lambda h: h.number)` in `get_available_hymns`. -/
def insert_by_number (h : Hymn) : List Hymn → List Hymn
  | [] => [h]
  | x :: xs => if h.number ≤ x.number then h :: x :: xs else x :: insert_by_number h xs

/-- Stable ascending sort by hymn number, modelling
`available.sort(key=lambda h: h.number)`. -/
def sort_by_number : List Hymn → List Hymn
  | [] => []
  | x :: xs => insert_by_number x (sort_by_number xs)

/-- `HymnHistoryService.get_available_hymns`. -/
def get_available_hymns (hist : Option Nat → Option String → Nat → List Nat)
    (catalog : List Hymn) (position : Nat) (wardId : Option Nat)
    (wardName : Option String) (primaDomenica domenicaFestiva : Bool)
    (tipoFestivita : Option FestivityType) (excludeNumbers : List Nat) :
    Except HymnError (List Hymn) :=
  let usedHymns := hist wardId wardName 5
  let allExcluded := usedHymns ++ excludeNumbers
  match pool_for_position catalog position domenicaFestiva tipoFestivita with
  | .error e => .error e
  | .ok availableHymns =>
      let available := availableHymns.filter (fun h => !(allExcluded.contains h.number))
      .ok (sort_by_number available)

/-- The contract of `random.sample(pool, k)`: when `k ≤ len(pool)` it
returns `k` hymns, each drawn from the pool, at pairwise distinct
positions (so from a pool with pairwise distinct numbers the drawn
numbers are pairwise distinct). -/
structure SampleOK (sample : List Hymn → Nat → List Hymn) : Prop where
  length_eq : ∀ l k, k ≤ l.length → (sample l k).length = k
  subset : ∀ l k h, h ∈ sample l k → h ∈ l
  nodup_num : ∀ l k, ((l.map Hymn.number).Nodup) → ((sample l k).map Hymn.number).Nodup

/-- The contract of `random.choice(pool)`: on a nonempty pool it returns
a member of the pool. -/
def ChoiceOK (choice : List Hymn → Hymn) : Prop :=
  ∀ l, l ≠ [] → choice l ∈ l

/-- A deterministic sampler satisfying `SampleOK`, used by the concrete
witnesses. -/
def sample_take (l : List Hymn) (k : Nat) : List Hymn := l.take k

/-- A deterministic chooser satisfying `ChoiceOK`, used by the concrete
witnesses. -/
def choice_head (l : List Hymn) : Hymn := l.headD ⟨0, "", "", []⟩

theorem sample_take_ok : SampleOK sample_take := by
  refine ⟨?_, ?_, ?_⟩
  · intro l k hk
    simpa [sample_take] using hk
  · intro l k h hmem
    exact List.mem_of_mem_take hmem
  · intro l k hn
    exact hn.sublist ((List.take_sublist _ _).map Hymn.number)

theorem choice_head_ok : ChoiceOK choice_head := by
  intro l hl
  cases l with
  | nil => exact absurd rfl hl
  | cons a t => simp [choice_head]

example : pyLower "Sacramento" = "sacramento" := by decide
example : should_exclude_hymn none ⟨1, "t", "lode", ["natale"]⟩ = false := by decide
example : should_exclude_hymn (some "pasqua") ⟨1, "t", "lode", ["natale"]⟩ = true := by decide

theorem pyLower_sacramento : pyLower "sacramento" = "sacramento" := by decide

theorem pyLower_natale : pyLower "natale" = "natale" := by decide

theorem pyLower_pasqua : pyLower "pasqua" = "pasqua" := by decide

theorem pyLower_occasioni : pyLower "occasioni speciali" = "occasioni speciali" := by decide

theorem mem_filter_by_category {catalog : List Hymn} {c : String} {h : Hymn} :
    h ∈ filter_by_category catalog c ↔ h ∈ catalog ∧ pyLower h.category = pyLower c := by
  simp [filter_by_category, List.mem_filter]

theorem mem_exclude_festive_hymns {l : List Hymn} {a : Option String} {h : Hymn} :
    h ∈ exclude_festive_hymns l a ↔ h ∈ l ∧ should_exclude_hymn a h = false := by
  simp [exclude_festive_hymns, List.mem_filter]

theorem mem_get_sacramento_hymns {catalog : List Hymn} {df : Bool}
    {tipo : Option FestivityType} {h : Hymn}
    (hm : h ∈ get_sacramento_hymns catalog df tipo) :
    h ∈ catalog ∧ pyLower h.category = "sacramento" := by
  have hf : h ∈ filter_by_category catalog "sacramento" := by
    cases df <;> cases tipo <;>
      simpa [get_sacramento_hymns, exclude_festive_hymns, List.mem_filter] using
        And.left (by simpa [get_sacramento_hymns, exclude_festive_hymns,
          List.mem_filter] using hm)
  have := mem_filter_by_category.mp hf
  exact ⟨this.1, by rw [this.2, pyLower_sacramento]⟩

theorem not_festive_category_of_not_excluded {h : Hymn}
    (hx : should_exclude_hymn none h = false) :
    pyLower h.category ≠ "natale" ∧ pyLower h.category ≠ "pasqua" := by
  unfold should_exclude_hymn at hx
  constructor
  · intro hc
    simp [hc] at hx
  · intro hc
    simp [hc] at hx

theorem mem_dedup_festive {h : Hymn} :
    ∀ (l : List Hymn) (seen : List Nat), h ∈ (dedup_festive l seen).1 →
      h ∈ l ∧ pyLower h.category ≠ "sacramento" := by
  intro l
  induction l with
  | nil => intro seen hm; simp [dedup_festive] at hm
  | cons x t ih =>
      intro seen hm
      rw [dedup_festive] at hm
      split at hm
      · next hcond =>
          simp only [List.mem_cons] at hm
          rcases hm with rfl | hm
          · refine ⟨List.mem_cons_self _ _, ?_⟩
            rw [Bool.and_eq_true] at hcond
            simpa using hcond.2
          · rcases ih _ hm with ⟨h1, h2⟩
            exact ⟨List.mem_cons_of_mem _ h1, h2⟩
      · rcases ih _ hm with ⟨h1, h2⟩
        exact ⟨List.mem_cons_of_mem _ h1, h2⟩

theorem dedup_festive_props :
    ∀ (l : List Hymn) (seen : List Nat),
      (∀ h ∈ (dedup_festive l seen).1,
        h.number ∉ seen ∧ h.number ∈ (dedup_festive l seen).2) ∧
      ((dedup_festive l seen).1.map Hymn.number).Nodup ∧
      (∀ n ∈ seen, n ∈ (dedup_festive l seen).2) := by
  intro l
  induction l with
  | nil => intro seen; simp [dedup_festive]
  | cons x t ih =>
      intro seen
      rw [dedup_festive]
      split
      · next hcond =>
          have hxs : x.number ∉ seen := by
            rw [Bool.and_eq_true] at hcond
            simpa using hcond.1
          obtain ⟨ihm, ihd, ihs⟩ := ih (x.number :: seen)
          refine ⟨?_, ?_, ?_⟩
          · intro h hm
            simp only [List.mem_cons] at hm
            rcases hm with rfl | hm
            · exact ⟨hxs, ihs _ (List.mem_cons_self _ _)⟩
            · obtain ⟨hns, hin⟩ := ihm h hm
              exact ⟨fun hx => hns (List.mem_cons_of_mem _ hx), hin⟩
          · simp only [List.map_cons, List.nodup_cons]
            refine ⟨?_, ihd⟩
            intro hx
            obtain ⟨h, hm, hnum⟩ := List.mem_map.mp hx
            exact (ihm h hm).1 (hnum ▸ List.mem_cons_self _ _)
          · intro n hn
            exact ihs n (List.mem_cons_of_mem _ hn)
      · exact ih seen

theorem top_up_props :
    ∀ (specials : List Hymn) (seen : List Nat) (needed : Nat) (tv : String),
      (∀ h ∈ top_up specials seen needed tv, h ∈ specials ∧ h.number ∉ seen) ∧
      ((top_up specials seen needed tv).map Hymn.number).Nodup := by
  intro specials
  induction specials with
  | nil =>
      intro seen needed tv
      cases needed <;> simp [top_up]
  | cons x t ih =>
      intro seen needed tv
      cases needed with
      | zero => simp [top_up]
      | succ m =>
          rw [top_up]
          split
          · next hns =>
              have hxs : x.number ∉ seen := by simpa using hns
              split
              · next =>
                  obtain ⟨ihm, ihd⟩ := ih seen (m + 1) tv
                  exact ⟨fun h hm => ⟨List.mem_cons_of_mem _ (ihm h hm).1,
                    (ihm h hm).2⟩, ihd⟩
              · next =>
                  obtain ⟨ihm, ihd⟩ := ih (x.number :: seen) m tv
                  refine ⟨?_, ?_⟩
                  · intro h hm
                    simp only [List.mem_cons] at hm
                    rcases hm with rfl | hm
                    · exact ⟨List.mem_cons_self _ _, hxs⟩
                    · obtain ⟨h1, h2⟩ := ihm h hm
                      exact ⟨List.mem_cons_of_mem _ h1,
                        fun hx => h2 (List.mem_cons_of_mem _ hx)⟩
                  · simp only [List.map_cons, List.nodup_cons]
                    refine ⟨?_, ihd⟩
                    intro hx
                    obtain ⟨h, hm, hnum⟩ := List.mem_map.mp hx
                    exact (ihm h hm).2 (hnum ▸ List.mem_cons_self _ _)
          · next =>
              obtain ⟨ihm, ihd⟩ := ih seen (m + 1) tv
              exact ⟨fun h hm => ⟨List.mem_cons_of_mem _ (ihm h hm).1,
                (ihm h hm).2⟩, ihd⟩

/-- Predicate for a special-occasion hymn that the top-up loop would
accept relative to a given seen set: unseen number and no conflicting
festive tag. -/
def qualifies (seen : List Nat) (tv : String) (h : Hymn) : Bool :=
  !(seen.contains h.number) && !(has_conflicting_tags tv h)

theorem top_up_length :
    ∀ (specials : List Hymn) (seen : List Nat) (needed : Nat) (tv : String),
      ((specials.map Hymn.number).Nodup) →
      (top_up specials seen needed tv).length =
        min needed ((specials.filter (qualifies seen tv)).length) := by
  intro specials
  induction specials with
  | nil =>
      intro seen needed tv _
      cases needed <;> simp [top_up]
  | cons x t ih =>
      intro seen needed tv hnd
      simp only [List.map_cons, List.nodup_cons] at hnd
      obtain ⟨hx, hndt⟩ := hnd
      cases needed with
      | zero => simp [top_up]
      | succ m =>
          rw [top_up]
          by_cases hcont : x.number ∈ seen
          · rw [if_neg (by simp [hcont])]
            have hq : qualifies seen tv x = false := by
              simp [qualifies, hcont]
            rw [List.filter_cons_of_neg (by simp [hq])]
            exact ih seen (m + 1) tv hndt
          · rw [if_pos (by simp [hcont])]
            by_cases hconf : has_conflicting_tags tv x
            · rw [if_pos hconf]
              have hq : qualifies seen tv x = false := by
                simp [qualifies, hconf]
              rw [List.filter_cons_of_neg (by simp [hq])]
              exact ih seen (m + 1) tv hndt
            · rw [if_neg hconf]
              have hq : qualifies seen tv x = true := by
                simp [qualifies, hcont, hconf]
              rw [List.filter_cons_of_pos (by simp [hq])]
              have hfc : t.filter (qualifies (x.number :: seen) tv) =
                  t.filter (qualifies seen tv) := by
                apply List.filter_congr
                intro y hy
                have hyx : y.number ≠ x.number := by
                  intro he
                  exact hx (List.mem_map.mpr ⟨y, hy, he⟩)
                simp [qualifies, List.contains_cons, hyx]
              simp only [List.length_cons, ih (x.number :: seen) m tv hndt, hfc]
              omega

theorem mem_festive_strict_pool {catalog : List Hymn} {t : FestivityType} {h : Hymn}
    (hm : h ∈ (festive_strict_pool catalog t).1) :
    h ∈ catalog ∧ pyLower h.category ≠ "sacramento" := by
  have hm' := (mem_exclude_festive_hymns.mp hm).1
  obtain ⟨hin, hcat⟩ := mem_dedup_festive _ _ hm'
  refine ⟨?_, hcat⟩
  rcases List.mem_append.mp hin with hin | hin
  · exact (mem_filter_by_category.mp (List.mem_filter.mp hin).1).1
  · have := (List.mem_filter.mp hin).1
    simp only [filter_by_tags, List.mem_filter] at this
    exact this.1

theorem mem_occasioni_added {catalog : List Hymn} {t : FestivityType} {h : Hymn}
    (hm : h ∈ occasioni_added catalog t) :
    h ∈ catalog ∧ pyLower h.category = "occasioni speciali" := by
  simp only [occasioni_added] at hm
  split at hm
  · have hin := ((top_up_props _ _ _ _).1 h hm).1
    have := mem_filter_by_category.mp hin
    exact ⟨this.1, by rw [this.2, pyLower_occasioni]⟩
  · simp at hm

theorem mem_get_other_hymns {catalog : List Hymn} {df : Bool}
    {tipo : Option FestivityType} {pool : List Hymn} {h : Hymn}
    (hp : get_other_hymns catalog df tipo = .ok pool) (hm : h ∈ pool) :
    h ∈ catalog ∧ pyLower h.category ≠ "sacramento" := by
  unfold get_other_hymns at hp
  cases df with
  | false =>
      simp only [if_neg (by simp : ¬(false = true)), Except.ok.injEq] at hp
      subst hp
      have h1 := (mem_exclude_festive_hymns.mp hm).1
      simp only [exclude_special_occasions, List.mem_filter] at h1
      exact ⟨h1.1.1, by simpa using h1.1.2⟩
  | true =>
      cases tipo with
      | none => simp at hp
      | some t =>
          simp only [eq_self_iff_true, if_true, Except.ok.injEq] at hp
          subst hp
          rcases List.mem_append.mp hm with hm | hm
          · exact mem_festive_strict_pool hm
          · obtain ⟨h1, h2⟩ := mem_occasioni_added hm
            refine ⟨h1, ?_⟩
            rw [h2]
            decide

theorem mem_get_other_hymns_nonfestive {catalog : List Hymn}
    {tipo : Option FestivityType} {pool : List Hymn} {h : Hymn}
    (hp : get_other_hymns catalog false tipo = .ok pool) (hm : h ∈ pool) :
    should_exclude_hymn none h = false := by
  unfold get_other_hymns at hp
  simp only [if_neg (by simp : ¬(false = true)), Except.ok.injEq] at hp
  subst hp
  exact (mem_exclude_festive_hymns.mp hm).2

theorem get_other_hymns_nodup {catalog : List Hymn} {df : Bool}
    {tipo : Option FestivityType} {pool : List Hymn}
    (hcat : (catalog.map Hymn.number).Nodup)
    (hp : get_other_hymns catalog df tipo = .ok pool) :
    (pool.map Hymn.number).Nodup := by
  unfold get_other_hymns at hp
  cases df with
  | false =>
      simp only [if_neg (by simp : ¬(false = true)), Except.ok.injEq] at hp
      subst hp
      refine hcat.sublist (List.Sublist.map Hymn.number ?_)
      exact ((List.filter_sublist _).trans (List.filter_sublist _)).trans
        (List.filter_sublist _)
  | true =>
      cases tipo with
      | none => simp at hp
      | some t =>
          simp only [eq_self_iff_true, if_true, Except.ok.injEq] at hp
          subst hp
          rw [List.map_append]
          rw [List.nodup_append]
          have hstrict : ((festive_strict_pool catalog t).1.map Hymn.number).Nodup := by
            simp only [festive_strict_pool, exclude_festive_hymns]
            exact (dedup_festive_props _ []).2.1.sublist
              (List.Sublist.map Hymn.number (List.filter_sublist _))
          have hadded : ((occasioni_added catalog t).map Hymn.number).Nodup := by
            simp only [occasioni_added]
            split
            · exact (top_up_props _ _ _ _).2
            · simp
          refine ⟨hstrict, hadded, ?_⟩
          intro a ha hb
          obtain ⟨x, hx, hxa⟩ := List.mem_map.mp ha
          obtain ⟨y, hy, hya⟩ := List.mem_map.mp hb
      -- x is in the strict pool so its number is in the final seen set;
      -- y was added by top_up so its number is not in that seen set.
          have hxseen : x.number ∈ (festive_strict_pool catalog t).2 := by
            have hx' := (mem_exclude_festive_hymns.mp hx).1
            exact ((dedup_festive_props _ []).1 x hx').2
          have hynot : y.number ∉ (festive_strict_pool catalog t).2 := by
            simp only [occasioni_added] at hy
            split at hy
            · exact ((top_up_props _ _ _ _).1 y hy).2
            · simp at hy
          rw [← hxa] at hya
          exact hynot (hya ▸ hxseen)

theorem mem_filter_available_hymns {l : List Hymn} {used : List Nat} {h : Hymn} :
    h ∈ filter_available_hymns l used ↔ h ∈ l ∧ h.number ∉ used := by
  simp [filter_available_hymns, List.mem_filter]

theorem filter_available_sublist (l : List Hymn) (used : List Nat) :
    (filter_available_hymns l used).Sublist l :=
  List.filter_sublist _

theorem number_ne_of_category_ne {catalog : List Hymn}
    (hcat : (catalog.map Hymn.number).Nodup) {x y : Hymn}
    (hx : x ∈ catalog) (hy : y ∈ catalog)
    (hne : pyLower x.category ≠ pyLower y.category) : x.number ≠ y.number := by
  intro hnum
  exact hne (congrArg (fun h => pyLower (Hymn.category h))
    (List.inj_on_of_nodup_map hcat hx hy hnum))

theorem get_hymns_ok_inv {sample : List Hymn → Nat → List Hymn}
    {choice : List Hymn → Hymn} {catalog : List Hymn} {pd df : Bool}
    {tipo : Option FestivityType} {res : List Hymn}
    (hres : get_hymns sample choice catalog pd df tipo = .ok res) :
    ∃ pool o rest,
      get_other_hymns catalog df tipo = .ok pool ∧
      get_sacramento_hymns catalog df tipo ≠ [] ∧
      ¬(pool.length < (if pd then 3 else 4) - 1) ∧
      sample pool ((if pd then 3 else 4) - 1) = o :: rest ∧
      res = o :: choice (get_sacramento_hymns catalog df tipo) :: rest := by
  simp only [get_hymns] at hres
  by_cases hemp : (get_sacramento_hymns catalog df tipo).isEmpty = true
  · rw [if_pos hemp] at hres
    exact absurd hres (by simp)
  · rw [if_neg hemp] at hres
    rcases hpool : get_other_hymns catalog df tipo with e | pool
    · rw [hpool] at hres
      simp only [] at hres
      exact absurd hres (by simp)
    · rw [hpool] at hres
      simp only [] at hres
      by_cases hlen : pool.length < (if pd = true then 3 else 4) - 1
      · rw [if_pos hlen] at hres
        exact absurd hres (by simp)
      · rw [if_neg hlen] at hres
        rcases hsample : sample pool ((if pd = true then 3 else 4) - 1) with _ | ⟨o, rest⟩
        · rw [hsample] at hres
          simp only [] at hres
          exact absurd hres (by simp)
        · rw [hsample] at hres
          simp only [Except.ok.injEq] at hres
          refine ⟨pool, o, rest, rfl, ?_, hlen, hsample, hres.symm⟩
          intro hnil
          rw [hnil] at hemp
          simp at hemp

theorem pick_and_arrange_ok_inv {sample : List Hymn → Nat → List Hymn}
    {choice : List Hymn → Hymn} {availO availS : List Hymn} {k : Nat}
    {res : List Hymn}
    (h : pick_and_arrange sample choice availO availS k = .ok res) :
    availS ≠ [] ∧ ∃ o rest, sample availO k = o :: rest ∧
      res = o :: choice availS :: rest := by
  unfold pick_and_arrange at h
  rcases havs : availS with _ | ⟨s, ss⟩
  · rw [havs] at h
    simp only [] at h
    exact absurd h (by simp)
  · rw [havs] at h
    simp only [] at h
    rcases hsample : sample availO k with _ | ⟨o, rest⟩
    · rw [hsample] at h
      simp only [] at h
      exact absurd h (by simp)
    · rw [hsample] at h
      simp only [Except.ok.injEq] at h
      exact ⟨by simp, o, rest, rfl, h.symm⟩

theorem mem_if_relaxed_sacramento {sac : List Hymn} {u : List Nat} {x : Hymn}
    (hx : x ∈ (if (filter_available_hymns sac u).isEmpty then sac
                else filter_available_hymns sac u)) : x ∈ sac := by
  split at hx
  · exact hx
  · exact (mem_filter_available_hymns.mp hx).1

theorem mem_avail_sacramento {sac : List Hymn} {u5 u3 : List Nat} {x : Hymn}
    (hx : x ∈ (if (filter_available_hymns sac u5).isEmpty then
                 (if (filter_available_hymns sac u3).isEmpty then sac
                  else filter_available_hymns sac u3)
               else filter_available_hymns sac u5)) : x ∈ sac := by
  split at hx
  · exact mem_if_relaxed_sacramento hx
  · exact (mem_filter_available_hymns.mp hx).1

theorem get_smart_hymns_ok_inv {sample : List Hymn → Nat → List Hymn}
    {choice : List Hymn → Hymn}
    {hist : Option Nat → Option String → Nat → List Nat}
    {catalog : List Hymn} {wardId : Option Nat} {wardName : Option String}
    {pd df : Bool} {tipo : Option FestivityType} {res : List Hymn}
    (hres : get_smart_hymns sample choice hist catalog wardId wardName pd df tipo =
      .ok res) :
    get_hymns sample choice catalog pd df tipo = .ok res ∨
    ∃ pool availO availS o rest,
      get_other_hymns catalog df tipo = .ok pool ∧
      availO.Sublist pool ∧
      availS ≠ [] ∧
      (∀ x ∈ availS, x ∈ get_sacramento_hymns catalog df tipo) ∧
      ¬(availO.length < (if pd then 3 else 4) - 1) ∧
      sample availO ((if pd then 3 else 4) - 1) = o :: rest ∧
      res = o :: choice availS :: rest := by
  simp only [get_smart_hymns] at hres
  rcases hpool : get_other_hymns catalog df tipo with e | pool
  · rw [hpool] at hres
    simp only [] at hres
    exact absurd hres (by simp)
  · rw [hpool] at hres
    simp only [] at hres
    by_cases hb0 :
        (filter_available_hymns pool
          (if (filter_available_hymns (get_sacramento_hymns catalog df tipo)
                (hist wardId wardName 5)).isEmpty = true then hist none wardName 3
           else hist wardId wardName 5)).length < (if pd = true then 3 else 4) - 1
    · rw [if_pos hb0] at hres
      by_cases hb1 :
          (filter_available_hymns pool (hist none wardName 3)).length <
            (if pd = true then 3 else 4) - 1
      · rw [if_pos hb1] at hres
        exact Or.inl hres
      · rw [if_neg hb1] at hres
        obtain ⟨hne, o, rest, hsample, hresq⟩ := pick_and_arrange_ok_inv hres
        exact Or.inr ⟨pool, _, _, o, rest, rfl, filter_available_sublist _ _, hne,
          fun x hx => mem_avail_sacramento hx, hb1, hsample, hresq⟩
    · rw [if_neg hb0] at hres
      obtain ⟨hne, o, rest, hsample, hresq⟩ := pick_and_arrange_ok_inv hres
      exact Or.inr ⟨pool, _, _, o, rest, rfl, filter_available_sublist _ _, hne,
        fun x hx => mem_avail_sacramento hx, hb0, hsample, hresq⟩

theorem selection_aux {sample : List Hymn → Nat → List Hymn}
    {choice : List Hymn → Hymn} {catalog : List Hymn} {pd df : Bool}
    {tipo : Option FestivityType} {pool availO availS : List Hymn}
    {o : Hymn} {rest res : List Hymn}
    (hs : SampleOK sample) (hc : ChoiceOK choice)
    (hpool : get_other_hymns catalog df tipo = .ok pool)
    (hOsub : availO.Sublist pool)
    (hSne : availS ≠ [])
    (hSsub : ∀ x ∈ availS, x ∈ get_sacramento_hymns catalog df tipo)
    (hlen : ¬(availO.length < (if pd then 3 else 4) - 1))
    (hsample : sample availO ((if pd then 3 else 4) - 1) = o :: rest)
    (hres : res = o :: choice availS :: rest) :
    res.length = (if pd then 3 else 4) ∧
    ∃ o' s rest', res = o' :: s :: rest' ∧
      pyLower s.category = "sacramento" ∧
      ∀ x ∈ o' :: rest', pyLower x.category ≠ "sacramento" := by
  have hk : (o :: rest).length = (if pd then 3 else 4) - 1 := by
    rw [← hsample]
    exact hs.length_eq _ _ (Nat.not_lt.mp hlen)
  have hschoice : choice availS ∈ availS := hc availS hSne
  have hscat : pyLower (choice availS).category = "sacramento" :=
    (mem_get_sacramento_hymns (hSsub _ hschoice)).2
  have hother : ∀ x ∈ o :: rest, pyLower x.category ≠ "sacramento" := by
    intro x hx
    have hxs : x ∈ sample availO ((if pd then 3 else 4) - 1) := hsample ▸ hx
    have hxp : x ∈ pool := hOsub.subset (hs.subset _ _ _ hxs)
    exact (mem_get_other_hymns hpool hxp).2
  refine ⟨?_, o, choice availS, rest, hres, hscat, hother⟩
  rw [hres]
  simp only [List.length_cons] at hk ⊢
  cases pd <;> simp at hk ⊢ <;> omega

/-- C1: every selection returned normally by `get_hymns` (Selection
Engine) or `get_smart_hymns` (History-Aware Wrapper) has length 3 when
`prima_domenica` is true and 4 otherwise, is arranged as
[other, sacramento, other, ...] in draw order, the hymn at 0-based
index 1 has (case-insensitive) category "sacramento", and every other
position holds a non-sacramento hymn. -/
theorem selection_length_and_sacramento_slot
    (sample : List Hymn → Nat → List Hymn) (choice : List Hymn → Hymn)
    (hist : Option Nat → Option String → Nat → List Nat)
    (catalog : List Hymn) (wardId : Option Nat) (wardName : Option String)
    (primaDomenica domenicaFestiva : Bool) (tipo : Option FestivityType)
    (res : List Hymn)
    (hs : SampleOK sample) (hc : ChoiceOK choice)
    (hres :
      get_hymns sample choice catalog primaDomenica domenicaFestiva tipo = .ok res ∨
      get_smart_hymns sample choice hist catalog wardId wardName primaDomenica
        domenicaFestiva tipo = .ok res) :
    res.length = (if primaDomenica then 3 else 4) ∧
    ∃ o s rest, res = o :: s :: rest ∧
      pyLower s.category = "sacramento" ∧
      ∀ x ∈ o :: rest, pyLower x.category ≠ "sacramento" := by
  have hplain : ∀ hg : get_hymns sample choice catalog primaDomenica
      domenicaFestiva tipo = .ok res,
      res.length = (if primaDomenica then 3 else 4) ∧
      ∃ o s rest, res = o :: s :: rest ∧
        pyLower s.category = "sacramento" ∧
        ∀ x ∈ o :: rest, pyLower x.category ≠ "sacramento" := by
    intro hg
    obtain ⟨pool, o, rest, hpool, hemp, hlen, hsample, hresq⟩ := get_hymns_ok_inv hg
    exact selection_aux hs hc hpool (List.Sublist.refl _) hemp
      (fun x hx => hx) hlen hsample hresq
  rcases hres with hres | hres
  · exact hplain hres
  · rcases get_smart_hymns_ok_inv hres with hg | hg
    · exact hplain hg
    · obtain ⟨pool, availO, availS, o, rest, hpool, hOsub, hSne, hSsub, hlen,
        hsample, hresq⟩ := hg
      exact selection_aux hs hc hpool hOsub hSne hSsub hlen hsample hresq

theorem selection_nodup_aux {sample : List Hymn → Nat → List Hymn}
    {choice : List Hymn → Hymn} {catalog : List Hymn} {pd df : Bool}
    {tipo : Option FestivityType} {pool availO availS : List Hymn}
    {o : Hymn} {rest res : List Hymn}
    (hcat : (catalog.map Hymn.number).Nodup)
    (hs : SampleOK sample) (hc : ChoiceOK choice)
    (hpool : get_other_hymns catalog df tipo = .ok pool)
    (hOsub : availO.Sublist pool)
    (hSne : availS ≠ [])
    (hSsub : ∀ x ∈ availS, x ∈ get_sacramento_hymns catalog df tipo)
    (hsample : sample availO ((if pd then 3 else 4) - 1) = o :: rest)
    (hres : res = o :: choice availS :: rest) :
    (res.map Hymn.number).Nodup := by
  have hpoolnd : (pool.map Hymn.number).Nodup := get_other_hymns_nodup hcat hpool
  have havOnd : (availO.map Hymn.number).Nodup :=
    hpoolnd.sublist (hOsub.map Hymn.number)
  have hmap : ((o :: rest).map Hymn.number).Nodup := by
    rw [← hsample]
    exact hs.nodup_num _ _ havOnd
  have hsmem := mem_get_sacramento_hymns (hSsub _ (hc availS hSne))
  have hsne : ∀ x ∈ o :: rest, (choice availS).number ≠ x.number := by
    intro x hx
    have hxs : x ∈ sample availO ((if pd then 3 else 4) - 1) := hsample ▸ hx
    have hxc := mem_get_other_hymns hpool (hOsub.subset (hs.subset _ _ _ hxs))
    refine number_ne_of_category_ne hcat hsmem.1 hxc.1 ?_
    rw [hsmem.2]
    exact fun he => hxc.2 he.symm
  have hres' : res.map Hymn.number =
      o.number :: (choice availS).number :: rest.map Hymn.number := by
    rw [hres]; simp
  rw [hres']
  simp only [List.map_cons, List.nodup_cons] at hmap
  refine List.nodup_cons.mpr ⟨?_, List.nodup_cons.mpr ⟨?_, hmap.2⟩⟩
  · intro hmem
    rcases List.mem_cons.mp hmem with he | hmem
    · exact hsne o (List.mem_cons_self _ _) he.symm
    · exact hmap.1 hmem
  · intro hmem
    obtain ⟨x, hx, hxe⟩ := List.mem_map.mp hmem
    exact hsne x (List.mem_cons_of_mem _ hx) hxe.symm

/-- C10: over a catalog with pairwise distinct hymn numbers, every
selection returned by `get_hymns` or `get_smart_hymns` consists of
pairwise distinct hymns: the non-sacramento hymns are drawn without
replacement from one pool and the sacramento hymn comes from the
disjoint sacramento pool, so no hymn number occurs twice. -/
theorem selection_numbers_nodup
    (sample : List Hymn → Nat → List Hymn) (choice : List Hymn → Hymn)
    (hist : Option Nat → Option String → Nat → List Nat)
    (catalog : List Hymn) (wardId : Option Nat) (wardName : Option String)
    (primaDomenica domenicaFestiva : Bool) (tipo : Option FestivityType)
    (res : List Hymn)
    (hcat : (catalog.map Hymn.number).Nodup)
    (hs : SampleOK sample) (hc : ChoiceOK choice)
    (hres :
      get_hymns sample choice catalog primaDomenica domenicaFestiva tipo = .ok res ∨
      get_smart_hymns sample choice hist catalog wardId wardName primaDomenica
        domenicaFestiva tipo = .ok res) :
    (res.map Hymn.number).Nodup := by
  have hplain : ∀ hg : get_hymns sample choice catalog primaDomenica
      domenicaFestiva tipo = .ok res, (res.map Hymn.number).Nodup := by
    intro hg
    obtain ⟨pool, o, rest, hpool, hemp, hlen, hsample, hresq⟩ := get_hymns_ok_inv hg
    exact selection_nodup_aux hcat hs hc hpool (List.Sublist.refl _) hemp
      (fun x hx => hx) hsample hresq
  rcases hres with hres | hres
  · exact hplain hres
  · rcases get_smart_hymns_ok_inv hres with hg | hg
    · exact hplain hg
    · obtain ⟨pool, availO, availS, o, rest, hpool, hOsub, hSne, hSsub, hlen,
        hsample, hresq⟩ := hg
      exact selection_nodup_aux hcat hs hc hpool hOsub hSne hSsub hsample hresq

theorem nonfestive_aux {sample : List Hymn → Nat → List Hymn}
    {choice : List Hymn → Hymn} {catalog : List Hymn} {pd : Bool}
    {tipo : Option FestivityType} {pool availO availS : List Hymn}
    {o : Hymn} {rest res : List Hymn}
    (hs : SampleOK sample) (hc : ChoiceOK choice)
    (hpool : get_other_hymns catalog false tipo = .ok pool)
    (hOsub : availO.Sublist pool)
    (hSne : availS ≠ [])
    (hSsub : ∀ x ∈ availS, x ∈ get_sacramento_hymns catalog false tipo)
    (hsample : sample availO ((if pd then 3 else 4) - 1) = o :: rest)
    (hres : res = o :: choice availS :: rest) :
    ∀ x ∈ res, pyLower x.category ≠ "natale" ∧ pyLower x.category ≠ "pasqua" := by
  intro x hx
  rw [hres] at hx
  have hsac := mem_get_sacramento_hymns (hSsub _ (hc availS hSne))
  rcases List.mem_cons.mp hx with rfl | hx'
  · have hxs : x ∈ sample availO ((if pd then 3 else 4) - 1) :=
      hsample ▸ List.mem_cons_self _ _
    have hxp := hs.subset _ _ _ hxs
    exact not_festive_category_of_not_excluded
      (mem_get_other_hymns_nonfestive hpool (hOsub.subset hxp))
  · rcases List.mem_cons.mp hx' with rfl | hx''
    · rw [hsac.2]
      exact ⟨by decide, by decide⟩
    · have hxs : x ∈ sample availO ((if pd then 3 else 4) - 1) := by
        rw [hsample]
        exact List.mem_cons_of_mem _ hx''
      have hxp := hs.subset _ _ _ hxs
      exact not_festive_category_of_not_excluded
        (mem_get_other_hymns_nonfestive hpool (hOsub.subset hxp))

/-- C2 (amended): on ordinary Sundays (`domenica_festiva` false) no hymn
of festive *category* "natale" or "pasqua" ever appears in a selection
returned by `get_hymns` or `get_smart_hymns`; hymns merely *tagged*
"natale"/"pasqua" are, however, not excluded (tag-based exclusion is
applied only on festive Sundays, against the conflicting festivity). -/
theorem nonfestive_selection_no_festive_category
    (sample : List Hymn → Nat → List Hymn) (choice : List Hymn → Hymn)
    (hist : Option Nat → Option String → Nat → List Nat)
    (catalog : List Hymn) (wardId : Option Nat) (wardName : Option String)
    (primaDomenica : Bool) (tipo : Option FestivityType) (res : List Hymn)
    (hs : SampleOK sample) (hc : ChoiceOK choice)
    (hres :
      get_hymns sample choice catalog primaDomenica false tipo = .ok res ∨
      get_smart_hymns sample choice hist catalog wardId wardName primaDomenica
        false tipo = .ok res) :
    ∀ x ∈ res, pyLower x.category ≠ "natale" ∧ pyLower x.category ≠ "pasqua" := by
  have hplain : ∀ hg : get_hymns sample choice catalog primaDomenica false tipo =
      .ok res, ∀ x ∈ res,
      pyLower x.category ≠ "natale" ∧ pyLower x.category ≠ "pasqua" := by
    intro hg
    obtain ⟨pool, o, rest, hpool, hemp, hlen, hsample, hresq⟩ := get_hymns_ok_inv hg
    exact nonfestive_aux hs hc hpool (List.Sublist.refl _) hemp
      (fun x hx => hx) hsample hresq
  rcases hres with hres | hres
  · exact hplain hres
  · rcases get_smart_hymns_ok_inv hres with hg | hg
    · exact hplain hg
    · obtain ⟨pool, availO, availS, o, rest, hpool, hOsub, hSne, hSsub, hlen,
        hsample, hresq⟩ := hg
      exact nonfestive_aux hs hc hpool hOsub hSne hSsub hsample hresq

/-- Concrete sacramento hymn used by the witnesses. -/
def sacr10 : Hymn := ⟨10, "sac", "sacramento", []⟩

/-- A second concrete sacramento hymn. -/
def sacr11 : Hymn := ⟨11, "sac2", "sacramento", []⟩

/-- An ordinary hymn that merely carries the "natale" tag. -/
def lodeTagged1 : Hymn := ⟨1, "a", "lode", ["natale"]⟩

/-- Ordinary untagged hymns. -/
def lode1 : Hymn := ⟨1, "a", "lode", []⟩

def lode2 : Hymn := ⟨2, "b", "lode", []⟩

def lode3 : Hymn := ⟨3, "c", "lode", []⟩

def lode4 : Hymn := ⟨4, "d", "lode", []⟩

/-- A festive Easter hymn. -/
def pasq5 : Hymn := ⟨5, "p", "pasqua", ["pasqua"]⟩

/-- Special-occasion hymns; `occ7` carries the conflicting "natale" tag. -/
def occ6 : Hymn := ⟨6, "o1", "occasioni speciali", []⟩

def occ7 : Hymn := ⟨7, "o2", "occasioni speciali", ["natale"]⟩

def occ8 : Hymn := ⟨8, "o3", "occasioni speciali", []⟩

/-- A history accessor with no recorded selections. -/
def hist_nil : Option Nat → Option String → Nat → List Nat := fun _ _ _ => []

/-- Catalog whose "other" pool contains a natale-tagged hymn. -/
def catalog_main : List Hymn := [sacr10, lodeTagged1, lode2, lode3, lode4]

/-- Catalog of one sacramento hymn plus four ordinary hymns. -/
def catalog_plain : List Hymn := [sacr10, lode1, lode2, lode3, lode4]

/-- Witness for C1 at a concrete catalog: the non-first-Sunday selection
has 4 hymns. -/
theorem selection_length_and_sacramento_slot_witness :
    ([lodeTagged1, sacr10, lode2, lode3] : List Hymn).length =
      (if false then 3 else 4) :=
  (selection_length_and_sacramento_slot sample_take choice_head hist_nil
    catalog_main none none false false none [lodeTagged1, sacr10, lode2, lode3]
    sample_take_ok choice_head_ok (Or.inl (by decide))).1

/-- C2 counterexample: on an ordinary Sunday (`domenica_festiva` false)
`get_hymns` returns a selection containing `lodeTagged1`, a hymn tagged
"natale", so festive-tagged hymns are not excluded on ordinary Sundays. -/
theorem nonfestive_selection_keeps_tagged_hymn :
    get_hymns sample_take choice_head catalog_main false false none =
      .ok [lodeTagged1, sacr10, lode2, lode3] ∧
    lodeTagged1 ∈ ([lodeTagged1, sacr10, lode2, lode3] : List Hymn) ∧
    "natale" ∈ lodeTagged1.tags.map pyLower := by
  decide

/-- Witness for the amended C2 at a concrete input: the tagged hymn kept
in the selection nevertheless has a non-festive category. -/
theorem nonfestive_selection_no_festive_category_witness :
    pyLower lodeTagged1.category ≠ "natale" ∧
    pyLower lodeTagged1.category ≠ "pasqua" :=
  nonfestive_selection_no_festive_category sample_take choice_head hist_nil
    catalog_main none none false none [lodeTagged1, sacr10, lode2, lode3]
    sample_take_ok choice_head_ok (Or.inl (by decide)) lodeTagged1 (by decide)

/-- Witness for C10 at a concrete catalog: the numbers of the returned
selection are pairwise distinct. -/
theorem selection_numbers_nodup_witness :
    (([lodeTagged1, sacr10, lode2, lode3] : List Hymn).map Hymn.number).Nodup :=
  selection_numbers_nodup sample_take choice_head hist_nil catalog_main
    none none false false none [lodeTagged1, sacr10, lode2, lode3] (by decide)
    sample_take_ok choice_head_ok (Or.inl (by decide))

/-- History for the C3 scenario: ward 1 used hymns 1,2 in the 5-week
window but nothing in its own 3-week window; the ward-unfiltered 3-week
query (what the code actually issues when relaxing, since it passes only
`ward_name`) returns 1,2,3 because another ward used them recently. -/
def hist_c3 : Option Nat → Option String → Nat → List Nat
  | some 1, _, 5 => [1, 2]
  | some 1, _, 3 => []
  | none, _, 3 => [1, 2, 3]
  | _, _, _ => []

/-- C3: with ward identity supplied as `ward_id = 1` (no name), the
3-week relaxation queries history without any ward filter, sees all
wards' hymns, concludes the pool is exhausted and falls back to plain
`get_hymns` — returning hymn 1, which is in ward 1's own recent-history
set, in a non-sacramento slot — even though ward 1's own 3-week window
leaves all 4 other hymns available (≥ 3 required). -/
theorem smart_requery_drops_ward_id_other_slots :
    get_smart_hymns sample_take choice_head hist_c3 catalog_plain (some 1) none
      false false none = .ok [lode1, sacr10, lode2, lode3] ∧
    lode1.number ∈ hist_c3 (some 1) none 5 ∧
    get_other_hymns catalog_plain false none = .ok [lode1, lode2, lode3, lode4] ∧
    ¬((filter_available_hymns [lode1, lode2, lode3, lode4]
        (hist_c3 (some 1) none 3)).length < 3) := by
  decide

/-- Catalog for the C4 scenario: two sacramento hymns, three others. -/
def catalog_twosac : List Hymn := [sacr10, sacr11, lode1, lode2, lode3]

/-- History for the C4 scenario: ward 1 used both sacramento hymns in
its 5-week window but only hymn 10 in its own 3-week window; the
ward-unfiltered 3-week query that the code actually issues still
returns both 10 and 11 (another ward used 11 recently). -/
def hist_c4 : Option Nat → Option String → Nat → List Nat
  | some 1, _, 5 => [10, 11]
  | some 1, _, 3 => [10]
  | none, _, 3 => [10, 11]
  | _, _, _ => []

/-- C4: with ward identity supplied as `ward_id = 1`, the sacramento
relaxation re-queries history without the ward filter, still finds the
pool empty, and jumps to "ignore history", returning hymn 10 — which is
in ward 1's own 3-week used set — even though re-querying the same
ward's 3-week history would have left hymn 11 available. -/
theorem smart_requery_drops_ward_id_sacramento_slot :
    get_smart_hymns sample_take choice_head hist_c4 catalog_twosac (some 1) none
      false false none = .ok [lode1, sacr10, lode2, lode3] ∧
    sacr10.number ∈ hist_c4 (some 1) none 3 ∧
    filter_available_hymns (get_sacramento_hymns catalog_twosac false none)
      (hist_c4 (some 1) none 3) = [sacr11] := by
  decide

/-- Catalog with one strictly-festive Easter hymn and no special-occasion
hymns at all. -/
def catalog_nospecials : List Hymn := [sacr10, pasq5]

/-- C5 counterexample: here the strict festive pool has 1 hymn, so the
claimed equality demands 3 - 1 = 2 added special-occasion hymns, but the
catalog has none to add: the loop adds 0, fewer than the shortfall. -/
theorem occasioni_top_up_below_shortfall :
    get_other_hymns catalog_nospecials true (some .pasqua) = .ok [pasq5] ∧
    (festive_strict_pool catalog_nospecials .pasqua).1.length = 1 ∧
    (occasioni_added catalog_nospecials .pasqua).length ≠
      3 - (festive_strict_pool catalog_nospecials .pasqua).1.length := by
  decide

/-- C5 (amended): the special-occasion top-up adds
min(shortfall, number of qualifying special-occasion hymns) hymns, where
a hymn qualifies when its number is not already seen and it carries no
conflicting festive tag — never more than the shortfall, and exactly the
shortfall whenever enough qualifying hymns exist. Stated for catalogs
with pairwise distinct hymn numbers. -/
theorem occasioni_added_length (catalog : List Hymn) (t : FestivityType)
    (hcat : (catalog.map Hymn.number).Nodup) :
    (occasioni_added catalog t).length =
      min (3 - (festive_strict_pool catalog t).1.length)
        (((filter_by_category catalog "occasioni speciali").filter
          (qualifies (festive_strict_pool catalog t).2 t.value)).length) := by
  simp only [occasioni_added]
  split
  · exact top_up_length _ _ _ _
      (hcat.sublist ((List.filter_sublist _).map Hymn.number))
  · next hn =>
      have h0 : 3 - (festive_strict_pool catalog t).1.length = 0 :=
        Nat.sub_eq_zero_of_le (Nat.le_of_not_lt hn)
      simp [h0]

/-- Catalog exercising the top-up: one strict festive hymn, three
special-occasion hymns of which one conflicts. -/
def catalog_specials : List Hymn := [sacr10, pasq5, occ6, occ7, occ8]

/-- Witness for the amended C5: with shortfall 2 and 2 qualifying
special-occasion hymns, exactly 2 are added. -/
theorem occasioni_added_length_witness :
    (occasioni_added catalog_specials .pasqua).length =
      min (3 - (festive_strict_pool catalog_specials .pasqua).1.length)
        (((filter_by_category catalog_specials "occasioni speciali").filter
          (qualifies (festive_strict_pool catalog_specials .pasqua).2
            FestivityType.pasqua.value)).length) ∧
    (occasioni_added catalog_specials .pasqua).length = 2 :=
  ⟨occasioni_added_length catalog_specials .pasqua (by decide), by decide⟩

theorem get_other_hymns_festive_none (catalog : List Hymn) :
    get_other_hymns catalog true none = .error .invalidFilter := rfl

/-- C6 counterexample: with `domenica_festiva = true` and
`tipo_festivita = None`, the position-2 operations do not raise
`InvalidFilterError`: they answer from the sacramento pool filtered in
the non-festive mode. -/
theorem festive_without_type_position_two_no_error :
    get_available_hymns hist_nil [sacr10] 2 none none false true none [] =
      .ok [sacr10] ∧
    get_replacement_hymn choice_head hist_nil [sacr10] 2 none none false true
      none [] = .ok sacr10 := by
  decide

/-- C6 (amended): with `domenica_festiva` true and null `tipo_festivita`,
`get_hymns` raises `InvalidFilterError` whenever its (festive-filtered)
sacramento pool is nonempty, `get_smart_hymns` always raises it, and
`get_replacement_hymn`/`get_available_hymns` raise it for every position
other than 2; for position 2 those two operations silently fall back to
the sacramento pool filtered exactly as in the non-festive mode. -/
theorem festive_without_type_validation
    (sample : List Hymn → Nat → List Hymn) (choice : List Hymn → Hymn)
    (hist : Option Nat → Option String → Nat → List Nat)
    (catalog : List Hymn) (wardId : Option Nat) (wardName : Option String)
    (pd pd2 : Bool) (position : Nat) (excludeNumbers : List Nat) :
    (get_sacramento_hymns catalog true none ≠ [] →
      get_hymns sample choice catalog pd true none = .error .invalidFilter) ∧
    get_smart_hymns sample choice hist catalog wardId wardName pd true none =
      .error .invalidFilter ∧
    (position ≠ 2 →
      get_replacement_hymn choice hist catalog position wardId wardName pd2 true
        none excludeNumbers = .error .invalidFilter ∧
      get_available_hymns hist catalog position wardId wardName pd2 true none
        excludeNumbers = .error .invalidFilter) ∧
    get_sacramento_hymns catalog true none =
      get_sacramento_hymns catalog false none := by
  refine ⟨?_, ?_, ?_, rfl⟩
  · intro hne
    simp only [get_hymns, get_other_hymns_festive_none]
    rw [if_neg (by simp [hne])]
  · simp only [get_smart_hymns, get_other_hymns_festive_none]
  · intro hpos
    have hbeq : (position == 2) = false := by simpa using hpos
    constructor
    · simp only [get_replacement_hymn, pool_for_position, hbeq,
        Bool.false_eq_true, if_false, get_other_hymns_festive_none]
    · simp only [get_available_hymns, pool_for_position, hbeq,
        Bool.false_eq_true, if_false, get_other_hymns_festive_none]

/-- Witness for the amended C6 at a concrete catalog and position 3. -/
theorem festive_without_type_validation_witness :
    get_hymns sample_take choice_head catalog_plain false true none =
      .error .invalidFilter ∧
    get_smart_hymns sample_take choice_head hist_nil catalog_plain none none
      false true none = .error .invalidFilter ∧
    get_replacement_hymn choice_head hist_nil catalog_plain 3 none none false
      true none [] = .error .invalidFilter ∧
    get_available_hymns hist_nil catalog_plain 3 none none false true none [] =
      .error .invalidFilter := by
  obtain ⟨h1, h2, h3, _⟩ := festive_without_type_validation sample_take
    choice_head hist_nil catalog_plain none none false false 3 []
  obtain ⟨h3a, h3b⟩ := h3 (by decide)
  exact ⟨h1 (by decide), h2, h3a, h3b⟩

/-- C7: for a context that passes festivity validation (witnessed by the
other pool resolving to `.ok pool`), `get_hymns` fails with
`InsufficientHymnsError` exactly when the festive-filtered sacramento
pool is empty or the other pool has fewer than `hymn_count - 1` hymns
(`hymn_count` = 3 on a first Sunday, 4 otherwise); otherwise it returns
a selection. -/
theorem get_hymns_insufficient_iff
    (sample : List Hymn → Nat → List Hymn) (choice : List Hymn → Hymn)
    (catalog : List Hymn) (pd df : Bool) (tipo : Option FestivityType)
    (pool : List Hymn)
    (hs : SampleOK sample)
    (hpool : get_other_hymns catalog df tipo = .ok pool) :
    (get_hymns sample choice catalog pd df tipo = .error .insufficientHymns ↔
      (get_sacramento_hymns catalog df tipo = [] ∨
        pool.length < (if pd then 3 else 4) - 1)) ∧
    (¬(get_sacramento_hymns catalog df tipo = [] ∨
        pool.length < (if pd then 3 else 4) - 1) →
      ∃ res, get_hymns sample choice catalog pd df tipo = .ok res) := by
  simp only [get_hymns, hpool]
  by_cases hemp : (get_sacramento_hymns catalog df tipo).isEmpty = true
  · have hnil : get_sacramento_hymns catalog df tipo = [] := by
      simpa using hemp
    rw [if_pos hemp]
    exact ⟨⟨fun _ => Or.inl hnil, fun _ => rfl⟩,
      fun hn => absurd (Or.inl hnil) hn⟩
  · have hne : get_sacramento_hymns catalog df tipo ≠ [] := by
      simpa using hemp
    rw [if_neg hemp]
    by_cases hlen : pool.length < (if pd = true then 3 else 4) - 1
    · rw [if_pos hlen]
      exact ⟨⟨fun _ => Or.inr hlen, fun _ => rfl⟩,
        fun hn => absurd (Or.inr hlen) hn⟩
    · rw [if_neg hlen]
      rcases hsample : sample pool ((if pd = true then 3 else 4) - 1) with _ | ⟨o, rest⟩
      · exfalso
        have hlk := hs.length_eq pool _ (Nat.le_of_not_lt hlen)
        rw [hsample] at hlk
        cases pd <;> simp at hlk
      · simp only []
        refine ⟨⟨fun habs => absurd habs (by simp), fun hor => ?_⟩,
          fun _ => ⟨_, rfl⟩⟩
        rcases hor with hor | hor
        · exact absurd hor hne
        · exact absurd hor hlen

/-- Catalog whose other pool has only 2 hymns. -/
def catalog_short : List Hymn := [sacr10, lode2, lode3]

/-- Witness for C7: a non-festive, non-first-Sunday context whose other
pool has only 2 hymns raises `InsufficientHymnsError`. -/
theorem get_hymns_insufficient_iff_witness :
    get_hymns sample_take choice_head catalog_short false false none =
      .error .insufficientHymns :=
  (get_hymns_insufficient_iff sample_take choice_head catalog_short false false
    none [lode2, lode3] sample_take_ok (by decide)).1.mpr (Or.inr (by decide))

theorem filter_excl_mem {pool : List Hymn} {excl : List Nat} {x : Hymn} :
    x ∈ pool.filter (fun h => !(excl.contains h.number)) ↔
      x ∈ pool ∧ x.number ∉ excl := by
  simp [List.mem_filter]

theorem filter_combined_mem {pool : List Hymn} {used excl : List Nat} {x : Hymn} :
    x ∈ pool.filter (fun h => !((used ++ excl).contains h.number)) ↔
      x ∈ pool ∧ x.number ∉ used ∧ x.number ∉ excl := by
  simp [List.mem_filter, not_or]

theorem retry_pick_cases (choice : List Hymn → Hymn) (A B : List Hymn) :
    (A = [] ∧ B = [] ∧
      (match (if A.isEmpty then B else A) with
       | [] => Except.error HymnError.valueError
       | a :: rest => Except.ok (choice (a :: rest))) =
        Except.error HymnError.valueError) ∨
    (A = [] ∧ B ≠ [] ∧
      (match (if A.isEmpty then B else A) with
       | [] => Except.error HymnError.valueError
       | a :: rest => Except.ok (choice (a :: rest))) = Except.ok (choice B)) ∨
    (A ≠ [] ∧
      (match (if A.isEmpty then B else A) with
       | [] => Except.error HymnError.valueError
       | a :: rest => Except.ok (choice (a :: rest))) = Except.ok (choice A)) := by
  cases A with
  | nil =>
      cases B with
      | nil => exact Or.inl ⟨rfl, rfl, rfl⟩
      | cons b bs => exact Or.inr (Or.inl ⟨rfl, by simp, rfl⟩)
  | cons a as => exact Or.inr (Or.inr ⟨by simp, rfl⟩)

/-- C8: `get_replacement_hymn` never returns a hymn whose number is in
the caller-supplied `exclude_numbers`; with position 2 it always returns
a sacramento-category hymn; it fails (with the `ValueError`) exactly
when even the pool filtered by the caller-supplied exclusions alone is
empty; and when the combined history-plus-caller exclusion empties the
pool while the caller-only exclusion does not, it retries and draws
from the caller-only-filtered pool. -/
theorem replacement_spec
    (choice : List Hymn → Hymn)
    (hist : Option Nat → Option String → Nat → List Nat)
    (catalog : List Hymn) (position : Nat) (wardId : Option Nat)
    (wardName : Option String) (pd df : Bool) (tipo : Option FestivityType)
    (excludeNumbers : List Nat) (pool : List Hymn)
    (hc : ChoiceOK choice)
    (hpool : pool_for_position catalog position df tipo = .ok pool) :
    (∀ h, get_replacement_hymn choice hist catalog position wardId wardName pd df
        tipo excludeNumbers = .ok h → h.number ∉ excludeNumbers) ∧
    (position = 2 → ∀ h, get_replacement_hymn choice hist catalog position wardId
        wardName pd df tipo excludeNumbers = .ok h →
        pyLower h.category = "sacramento") ∧
    (get_replacement_hymn choice hist catalog position wardId wardName pd df tipo
        excludeNumbers = .error .valueError ↔
      pool.filter (fun h => !(excludeNumbers.contains h.number)) = []) ∧
    (pool.filter (fun h =>
        !((hist wardId wardName 5 ++ excludeNumbers).contains h.number)) = [] →
      pool.filter (fun h => !(excludeNumbers.contains h.number)) ≠ [] →
      get_replacement_hymn choice hist catalog position wardId wardName pd df tipo
        excludeNumbers =
        .ok (choice (pool.filter (fun h => !(excludeNumbers.contains h.number))))) := by
  have hpoolsac : position = 2 → pool = get_sacramento_hymns catalog df tipo := by
    intro hp2
    subst hp2
    simpa [pool_for_position] using hpool.symm
  have hred : get_replacement_hymn choice hist catalog position wardId wardName pd
      df tipo excludeNumbers =
      (match (if (pool.filter (fun h =>
          !((hist wardId wardName 5 ++ excludeNumbers).contains h.number))).isEmpty
          then pool.filter (fun h => !(excludeNumbers.contains h.number))
          else pool.filter (fun h =>
            !((hist wardId wardName 5 ++ excludeNumbers).contains h.number))) with
       | [] => Except.error HymnError.valueError
       | a :: rest => Except.ok (choice (a :: rest))) := by
    simp only [get_replacement_hymn, hpool]
  rw [hred]
  rcases retry_pick_cases choice
      (pool.filter (fun h =>
        !((hist wardId wardName 5 ++ excludeNumbers).contains h.number)))
      (pool.filter (fun h => !(excludeNumbers.contains h.number))) with
    ⟨hA, hB, hres⟩ | ⟨hA, hB, hres⟩ | ⟨hA, hres⟩
  · rw [hres]
    refine ⟨?_, ?_, ⟨fun _ => hB, fun _ => rfl⟩, fun _ hne => absurd hB hne⟩
    · intro h habs
      simp at habs
    · intro _ h habs
      simp at habs
  · rw [hres]
    have hmem : choice (pool.filter (fun h => !(excludeNumbers.contains h.number))) ∈
        pool.filter (fun h => !(excludeNumbers.contains h.number)) := hc _ hB
    have hfacts := filter_excl_mem.mp hmem
    refine ⟨?_, ?_, ⟨fun habs => by simp at habs, fun habs => absurd habs hB⟩,
      fun _ _ => rfl⟩
    · intro h heq
      simp only [Except.ok.injEq] at heq
      subst heq
      exact hfacts.2
    · intro hp2 h heq
      simp only [Except.ok.injEq] at heq
      subst heq
      have hsaccat : ∀ x ∈ pool, pyLower x.category = "sacramento" := by
        intro x hx
        rw [hpoolsac hp2] at hx
        exact (mem_get_sacramento_hymns hx).2
      exact hsaccat _ hfacts.1
  · rw [hres]
    have hmem : choice (pool.filter (fun h =>
        !((hist wardId wardName 5 ++ excludeNumbers).contains h.number))) ∈
        pool.filter (fun h =>
          !((hist wardId wardName 5 ++ excludeNumbers).contains h.number)) :=
      hc _ hA
    have hfacts := filter_combined_mem.mp hmem
    have hBne : pool.filter (fun h => !(excludeNumbers.contains h.number)) ≠ [] := by
      intro hBnil
      have : choice (pool.filter (fun h =>
          !((hist wardId wardName 5 ++ excludeNumbers).contains h.number))) ∈
          pool.filter (fun h => !(excludeNumbers.contains h.number)) :=
        filter_excl_mem.mpr ⟨hfacts.1, hfacts.2.2⟩
      rw [hBnil] at this
      simp at this
    refine ⟨?_, ?_, ⟨fun habs => by simp at habs, fun habs => absurd habs hBne⟩,
      fun hAnil _ => absurd hAnil hA⟩
    · intro h heq
      simp only [Except.ok.injEq] at heq
      subst heq
      exact hfacts.2.2
    · intro hp2 h heq
      simp only [Except.ok.injEq] at heq
      subst heq
      have hsaccat : ∀ x ∈ pool, pyLower x.category = "sacramento" := by
        intro x hx
        rw [hpoolsac hp2] at hx
        exact (mem_get_sacramento_hymns hx).2
      exact hsaccat _ hfacts.1

/-- Witness for C8: with ward 1's history excluding both sacramento
hymns and no caller exclusions, the replacement for position 2 drops the
history exclusion and still returns a sacramento hymn. -/
theorem replacement_spec_witness :
    get_replacement_hymn choice_head hist_c4 catalog_twosac 2 (some 1) none false
      false none [] = .ok (choice_head (catalog_twosac.filter
        (fun h => pyLower h.category == pyLower "sacramento")|>.filter
        (fun h => !should_exclude_hymn none h) |>.filter
        (fun h => !(([] : List Nat).contains h.number)))) := by
  have h := (replacement_spec choice_head hist_c4 catalog_twosac 2 (some 1) none
    false false none [] (get_sacramento_hymns catalog_twosac false none)
    choice_head_ok (by decide)).2.2.2
  exact h (by decide) (by decide)

theorem insert_by_number_perm (h : Hymn) (l : List Hymn) :
    (insert_by_number h l).Perm (h :: l) := by
  induction l with
  | nil => simp [insert_by_number]
  | cons x xs ih =>
      rw [insert_by_number]
      split
      · exact List.Perm.refl _
      · exact (ih.cons x).trans (List.Perm.swap h x xs)

theorem sort_by_number_perm (l : List Hymn) : (sort_by_number l).Perm l := by
  induction l with
  | nil => simp [sort_by_number]
  | cons x xs ih =>
      rw [sort_by_number]
      exact (insert_by_number_perm x _).trans (ih.cons x)

theorem insert_by_number_pairwise {h : Hymn} {l : List Hymn}
    (hl : l.Pairwise (fun a b => a.number ≤ b.number)) :
    (insert_by_number h l).Pairwise (fun a b => a.number ≤ b.number) := by
  induction l with
  | nil => simp [insert_by_number]
  | cons x xs ih =>
      rw [insert_by_number]
      rcases List.pairwise_cons.mp hl with ⟨hx, hxs⟩
      split
      · next hle =>
          refine List.pairwise_cons.mpr ⟨?_, hl⟩
          intro y hy
          rcases List.mem_cons.mp hy with rfl | hy
          · exact hle
          · exact Nat.le_trans hle (hx _ hy)
      · next hgt =>
          refine List.pairwise_cons.mpr ⟨?_, ih hxs⟩
          intro y hy
          have hy' := (insert_by_number_perm h xs).mem_iff.mp hy
          rcases List.mem_cons.mp hy' with rfl | hy''
          · exact Nat.le_of_not_le hgt
          · exact hx _ hy''

theorem sort_by_number_pairwise (l : List Hymn) :
    (sort_by_number l).Pairwise (fun a b => a.number ≤ b.number) := by
  induction l with
  | nil => simp [sort_by_number]
  | cons x xs ih =>
      rw [sort_by_number]
      exact insert_by_number_pairwise ih

/-- C9: `get_available_hymns` returns exactly the position-appropriate
festive-filtered pool (sacramento pool for position 2, other pool
otherwise) minus both the ward's recent-history numbers and the
caller-supplied `exclude_numbers`, sorted ascending by hymn number. -/
theorem available_hymns_spec
    (hist : Option Nat → Option String → Nat → List Nat)
    (catalog : List Hymn) (position : Nat) (wardId : Option Nat)
    (wardName : Option String) (pd df : Bool) (tipo : Option FestivityType)
    (excludeNumbers : List Nat) (pool : List Hymn)
    (hpool : pool_for_position catalog position df tipo = .ok pool) :
    ∃ l, get_available_hymns hist catalog position wardId wardName pd df tipo
        excludeNumbers = .ok l ∧
      l.Perm (pool.filter (fun h =>
        !((hist wardId wardName 5 ++ excludeNumbers).contains h.number))) ∧
      l.Pairwise (fun a b => a.number ≤ b.number) ∧
      ∀ h : Hymn, h ∈ l ↔ (h ∈ pool ∧ h.number ∉ hist wardId wardName 5 ∧
        h.number ∉ excludeNumbers) := by
  refine ⟨sort_by_number (pool.filter (fun h =>
      !((hist wardId wardName 5 ++ excludeNumbers).contains h.number))),
    by simp only [get_available_hymns, hpool], sort_by_number_perm _,
    sort_by_number_pairwise _, ?_⟩
  intro h
  rw [(sort_by_number_perm _).mem_iff]
  exact filter_combined_mem

/-- History used by the C9 witness: hymn 3 was used recently. -/
def hist_three : Option Nat → Option String → Nat → List Nat := fun _ _ _ => [3]

/-- Catalog listed out of number order, to exercise the sort. -/
def catalog_unsorted : List Hymn := [sacr10, lode4, lode2, lode3]

/-- Witness for C9 at a concrete input: position 1, hymn 3 in history,
hymn 2 excluded by the caller; the remaining pool is sorted ascending. -/
theorem available_hymns_spec_witness :
    (∃ l, get_available_hymns hist_three catalog_unsorted 1 (some 1) none false
        false none [2] = .ok l ∧
      l.Perm (([lode4, lode2, lode3] : List Hymn).filter (fun h =>
        !((hist_three (some 1) none 5 ++ [2]).contains h.number))) ∧
      l.Pairwise (fun a b => a.number ≤ b.number) ∧
      ∀ h : Hymn, h ∈ l ↔ (h ∈ ([lode4, lode2, lode3] : List Hymn) ∧
        h.number ∉ hist_three (some 1) none 5 ∧ h.number ∉ ([2] : List Nat))) ∧
    get_available_hymns hist_three catalog_unsorted 1 (some 1) none false false
      none [2] = .ok [lode4] :=
  ⟨available_hymns_spec hist_three catalog_unsorted 1 (some 1) none false false
    none [2] [lode4, lode2, lode3] (by decide), by decide⟩
